import Mathlib

/-!
# Verification of the jobly dynamic query construction core

Shallow embedding of the repository's query-construction layer:

* `src/helpers/sql.js` — `sqlForPartialUpdate`
* `src/models/company.js` — `Company._sqlForCompaniesWhere`, `Company.findAll`,
  `Company.update`
* `src/unnamed/part_000` (the Job model) — `Job.findAll`, `Job.update`

JavaScript objects are embedded as insertion-ordered association lists
(`Obj`), matching `Object.keys` / `Object.values` / `for..in` iteration order
for string keys.  JS exceptions (`BadRequestError`, `NotFoundError`) become an
`Except ApiErr` result; the spec's `InvalidInput` is the code's
`BadRequestError`.  The embedding models each operation up to the statement it
would hand to the database driver (`Statement`: text plus ordered positional
parameters); an `Except.error` result means the operation raises before any
statement is built or executed.
-/

namespace Jobly

/-- A JavaScript value as it appears in the repository's filter and update
mappings: strings, numbers (integral in all repository uses), booleans and
`null`. -/
inductive Value where
  | str : String → Value
  | num : Int → Value
  | bool : Bool → Value
  | null : Value
deriving DecidableEq, Repr

/-- A JavaScript object, as an insertion-ordered association list. -/
abbrev Obj := List (String × Value)

/-- JS string coercion, as used by template literals (only the cases a
`Value` can take). -/
def jsString : Value → String
  | .str s => s
  | .num n => toString n
  | .bool b => if b then "true" else "false"
  | .null => "null"

/-- The error kinds thrown by the modelled layer: `BadRequestError` (the
spec's `InvalidInput`) and `NotFoundError`. -/
inductive ApiErr where
  | badRequest
  | notFound
deriving DecidableEq, Repr

/-- Result shape of `sqlForPartialUpdate`: the joined `SET` fragment string
and the ordered parameter values. -/
structure SetClause where
  setCols : String
  values : List Value
deriving DecidableEq, Repr

/-- A parameterized statement as handed to `db.query`: text plus ordered
positional values. -/
structure Statement where
  text : String
  params : List Value
deriving DecidableEq, Repr

/-- `jsToSql[colName] || colName` from `src/helpers/sql.js` line 22, under JS
string truthiness: a missing entry (`undefined`) and an empty-string entry are
both falsy, so both fall back to the logical field name. -/
def colFor (jsToSql : List (String × String)) (colName : String) : String :=
  match jsToSql.lookup colName with
  | some s => if s = "" then colName else s
  | none => colName

/-- The fragment list built by `sqlForPartialUpdate` (line 21-23):
`keys.map((colName, idx) => "<col>"=$<idx+1>)`. -/
def updateCols (dataToUpdate : Obj) (jsToSql : List (String × String)) : List String :=
  dataToUpdate.enum.map fun p =>
    "\"" ++ colFor jsToSql p.2.1 ++ "\"=$" ++ toString (p.1 + 1)

/-- `sqlForPartialUpdate` from `src/helpers/sql.js` lines 16-29: throws
`BadRequestError` on an empty mapping, otherwise returns the joined fragments
and `Object.values(dataToUpdate)`. -/
def sqlForPartialUpdate (dataToUpdate : Obj) (jsToSql : List (String × String)) :
    Except ApiErr SetClause :=
  if dataToUpdate.isEmpty then .error .badRequest
  else .ok { setCols := String.intercalate ", " (updateCols dataToUpdate jsToSql),
             values := dataToUpdate.map Prod.snd }

/-- The translation table Company.update passes to the builder
(`src/models/company.js` lines 175-178). -/
def companyJsToSql : List (String × String) :=
  [("numEmployees", "num_employees"), ("logoUrl", "logo_url")]

/-- `Company.update` (`src/models/company.js` lines 172-191) up to the
statement it executes: no key check of any kind, straight into
`sqlForPartialUpdate` with the company translation table, then the `UPDATE`
text with the handle bound as the final placeholder. -/
def companyUpdateStatement (handle : String) (data : Obj) : Except ApiErr Statement :=
  (sqlForPartialUpdate data companyJsToSql).map fun sc =>
    { text := "UPDATE companies SET " ++ sc.setCols ++ " WHERE handle = $" ++
        toString (sc.values.length + 1) ++
        " RETURNING handle, name, description, num_employees AS \"numEmployees\", logo_url AS \"logoUrl\"",
      params := sc.values ++ [Value.str handle] }

/-- `Job.update` (`src/unnamed/part_000` lines 153-170) up to the statement it
executes.  The guard is exactly line 154:
`data.id !== undefined || data.company_handle !== undefined` — note it tests
the snake-case key `company_handle`, not the camel-case `companyHandle` used
everywhere else in the Job API. -/
def jobUpdateStatement (id : Int) (data : Obj) : Except ApiErr Statement :=
  if (data.lookup "id").isSome || (data.lookup "company_handle").isSome then
    .error .badRequest
  else
    (sqlForPartialUpdate data []).map fun sc =>
      { text := "UPDATE jobs SET " ++ sc.setCols ++ " WHERE id = $" ++
          toString (sc.values.length + 1) ++
          " RETURNING id, title, salary, equity, company_handle AS \"companyHandle\"",
        params := sc.values ++ [Value.num id] }

/-- The fixed query text `Job.findAll` always executes
(`src/unnamed/part_000` lines 58-65). -/
def jobsListQuery : String :=
  "SELECT id, title, salary, equity, company_handle AS \"companyHandle\" FROM jobs ORDER BY title"

/-- `Job.findAll` (`src/unnamed/part_000` lines 57-67).  The source signature
is `findAll()`: it declares no filter parameter, so a filter mapping passed by
call sites (the model tests call `Job.findAll(filters)`) is ignored, as JS
ignores extra call arguments.  The helper `_sqlForJobsWhere` (lines 82-114) is
commented out in the source and never runs.  The modelled function keeps the
ignored argument explicit so call-site behavior can be stated. -/
def jobFindAll (_filters : Obj) : Except ApiErr Statement :=
  .ok { text := jobsListQuery, params := [] }

/-- `%${v}%` wildcard wrapping from `Company._sqlForCompaniesWhere` line 100
(template-literal string coercion). -/
def wildcardWrap (v : Value) : Value :=
  .str ("%" ++ jsString v ++ "%")

/-- The `for..in` loop of `Company._sqlForCompaniesWhere`
(`src/models/company.js` lines 95-115), made state-explicit: given the
remaining entries and the running placeholder index `idx`, returns the
mapping after the loop's in-place mutation (only a `nameLike` entry is
overwritten, with its wildcard-wrapped form) together with the accumulated
predicate fragments. -/
def companiesWhereLoop : Obj → Nat → Obj × List String
  | [], _ => ([], [])
  | (k, v) :: rest, idx =>
    if k = "nameLike" then
      let r := companiesWhereLoop rest (idx + 1)
      ((k, wildcardWrap v) :: r.1, ("name ILIKE $" ++ toString (idx + 1)) :: r.2)
    else if k = "minEmployees" then
      let r := companiesWhereLoop rest (idx + 1)
      ((k, v) :: r.1, ("num_employees >= $" ++ toString (idx + 1)) :: r.2)
    else if k = "maxEmployees" then
      let r := companiesWhereLoop rest (idx + 1)
      ((k, v) :: r.1, ("num_employees <= $" ++ toString (idx + 1)) :: r.2)
    else
      let r := companiesWhereLoop rest idx
      ((k, v) :: r.1, r.2)

/-- Result shape of `Company._sqlForCompaniesWhere`: `WHERE` clause string
and parameter values. -/
structure WhereResult where
  whereCols : String
  values : List Value
deriving DecidableEq, Repr

/-- `Company._sqlForCompaniesWhere` (`src/models/company.js` lines 91-123).
The first component is the returned object; the second is the caller's
mapping after the call (the JS function mutates `dataToFilter` in place on a
`nameLike` entry).  As in the source, `values` is
`Object.values(dataToFilter)` read from the mutated mapping — all values,
including those of unrecognized keys the loop skipped. -/
def sqlForCompaniesWhere (dataToFilter : Obj) : WhereResult × Obj :=
  if dataToFilter.isEmpty then ({ whereCols := "", values := [] }, dataToFilter)
  else
    let r := companiesWhereLoop dataToFilter 0
    if r.2.isEmpty then ({ whereCols := "", values := [] }, r.1)
    else ({ whereCols := "WHERE " ++ String.intercalate " AND " r.2,
            values := r.1.map Prod.snd }, r.1)

/-- The JS `>` comparison as used by `Company.findAll` line 59 on raw filter
values: false whenever either side is absent (`undefined` comparisons are
false); numeric comparison for numbers; lexicographic for two strings.  Mixed
numeric coercion cases do not arise in the repository (filters are
schema-validated upstream) and are modelled as false. -/
def jsGT : Option Value → Option Value → Bool
  | some (.num a), some (.num b) => a > b
  | some (.str a), some (.str b) => b < a
  | _, _ => false

/-- `Company.findAll` (`src/models/company.js` lines 58-76) up to the
statement it executes: the raw-value `minEmployees > maxEmployees` check at
lines 59-63 runs first, before `_sqlForCompaniesWhere` is invoked; otherwise
the builder output is interpolated into the fixed `SELECT`. -/
def companyFindAll (filters : Obj) : Except ApiErr Statement :=
  if jsGT (filters.lookup "minEmployees") (filters.lookup "maxEmployees") then
    .error .badRequest
  else
    let r := (sqlForCompaniesWhere filters).1
    .ok { text := "SELECT handle, name, description, num_employees AS \"numEmployees\", logo_url AS \"logoUrl\" FROM companies " ++
            r.whereCols ++ " ORDER BY name",
          params := r.values }

/-! ## Helper characterizations of the Company filter loop -/

/-- The Company filter keys the builder's loop recognizes. -/
def recognizedCompanyKey (k : String) : Bool :=
  k = "nameLike" || k = "minEmployees" || k = "maxEmployees"

/-- Predicate text, up to the placeholder number, emitted for each recognized
Company filter key. -/
def colTextCompany (k : String) : String :=
  if k = "nameLike" then "name ILIKE $"
  else if k = "minEmployees" then "num_employees >= $"
  else "num_employees <= $"

/-- The value the builder's loop leaves in the mapping under key `k`: the
wildcard-wrapped form for `nameLike`, the original value otherwise. -/
def processedCompanyValue (k : String) (v : Value) : Value :=
  if k = "nameLike" then wildcardWrap v else v

/-- First entry of a mapping whose key the Company builder recognizes. -/
def firstRecognizedCompany : Obj → Option (String × Value)
  | [] => none
  | p :: rest =>
    if recognizedCompanyKey p.1 then some p else firstRecognizedCompany rest

theorem companiesWhereLoop_fst (m : Obj) (idx : Nat) :
    (companiesWhereLoop m idx).1 =
      m.map fun p => (p.1, processedCompanyValue p.1 p.2) := by
  induction m generalizing idx with
  | nil => rfl
  | cons p rest ih =>
    obtain ⟨k, v⟩ := p
    by_cases h1 : k = "nameLike"
    · simp [companiesWhereLoop, h1, ih, processedCompanyValue]
    · by_cases h2 : k = "minEmployees"
      · simp [companiesWhereLoop, h1, h2, ih, processedCompanyValue]
      · by_cases h3 : k = "maxEmployees"
        · simp [companiesWhereLoop, h1, h2, h3, ih, processedCompanyValue]
        · simp [companiesWhereLoop, h1, h2, h3, ih, processedCompanyValue]

theorem companiesWhereLoop_cols_length (m : Obj) (idx : Nat) :
    (companiesWhereLoop m idx).2.length =
      (m.filter fun p => recognizedCompanyKey p.1).length := by
  induction m generalizing idx with
  | nil => rfl
  | cons p rest ih =>
    obtain ⟨k, v⟩ := p
    by_cases h1 : k = "nameLike"
    · simp [companiesWhereLoop, h1, ih, recognizedCompanyKey, List.filter_cons]
    · by_cases h2 : k = "minEmployees"
      · simp [companiesWhereLoop, h1, h2, ih, recognizedCompanyKey, List.filter_cons]
      · by_cases h3 : k = "maxEmployees"
        · simp [companiesWhereLoop, h1, h2, h3, ih, recognizedCompanyKey, List.filter_cons]
        · simp [companiesWhereLoop, h1, h2, h3, ih, recognizedCompanyKey, List.filter_cons]

theorem companiesWhereLoop_cons_recognized (k : String) (v : Value) (rest : Obj)
    (idx : Nat) (hk : recognizedCompanyKey k = true) :
    companiesWhereLoop ((k, v) :: rest) idx =
      ((k, processedCompanyValue k v) :: (companiesWhereLoop rest (idx + 1)).1,
       (colTextCompany k ++ toString (idx + 1)) :: (companiesWhereLoop rest (idx + 1)).2) := by
  by_cases h1 : k = "nameLike"
  · simp [companiesWhereLoop, h1, colTextCompany, processedCompanyValue]
  · by_cases h2 : k = "minEmployees"
    · simp [companiesWhereLoop, h1, h2, colTextCompany, processedCompanyValue]
    · have h3 : k = "maxEmployees" := by
        simpa [recognizedCompanyKey, h1, h2] using hk
      simp [companiesWhereLoop, h1, h2, h3, colTextCompany, processedCompanyValue]

theorem companiesWhereLoop_cons_other (k : String) (v : Value) (rest : Obj)
    (idx : Nat) (hk : recognizedCompanyKey k = false) :
    companiesWhereLoop ((k, v) :: rest) idx =
      ((k, v) :: (companiesWhereLoop rest idx).1, (companiesWhereLoop rest idx).2) := by
  have h1 : ¬k = "nameLike" := by
    intro h; simp [recognizedCompanyKey, h] at hk
  have h2 : ¬k = "minEmployees" := by
    intro h; simp [recognizedCompanyKey, h] at hk
  have h3 : ¬k = "maxEmployees" := by
    intro h; simp [recognizedCompanyKey, h] at hk
  simp [companiesWhereLoop, h1, h2, h3]

theorem companiesWhereLoop_cols_rec (m : Obj) (idx : Nat)
    (hm : ∀ p ∈ m, recognizedCompanyKey p.1 = true) :
    ∀ i : Nat, ∀ hi : i < m.length,
      (companiesWhereLoop m idx).2[i]? =
        some (colTextCompany (m.get ⟨i, hi⟩).1 ++ toString (idx + i + 1)) := by
  induction m generalizing idx with
  | nil => intro i hi; simp at hi
  | cons p rest ih =>
    obtain ⟨k, v⟩ := p
    have hk : recognizedCompanyKey k = true := hm (k, v) (List.mem_cons_self _ _)
    intro i hi
    rw [companiesWhereLoop_cons_recognized k v rest idx hk]
    cases i with
    | zero => simp
    | succ j =>
      have hj : j < rest.length := by simpa using Nat.lt_of_succ_lt_succ hi
      have hrec := ih (idx + 1) (fun q hq => hm q (List.mem_cons_of_mem _ hq)) j hj
      have harith : idx + 1 + j + 1 = idx + (j + 1) + 1 := by omega
      simpa [harith] using hrec

theorem companiesWhereLoop_cols_shape (m : Obj) (idx : Nat) :
    ∀ i : Nat, i < (companiesWhereLoop m idx).2.length →
      ∃ k, recognizedCompanyKey k = true ∧
        (companiesWhereLoop m idx).2[i]? =
          some (colTextCompany k ++ toString (idx + i + 1)) := by
  induction m generalizing idx with
  | nil => intro i hi; simp [companiesWhereLoop] at hi
  | cons p rest ih =>
    obtain ⟨k, v⟩ := p
    intro i hi
    by_cases hk : recognizedCompanyKey k = true
    · rw [companiesWhereLoop_cons_recognized k v rest idx hk] at hi ⊢
      cases i with
      | zero => exact ⟨k, hk, by simp⟩
      | succ j =>
        have hj : j < (companiesWhereLoop rest (idx + 1)).2.length := by
          simpa using Nat.lt_of_succ_lt_succ hi
        obtain ⟨k', hk', hcol⟩ := ih (idx + 1) j hj
        refine ⟨k', hk', ?_⟩
        have harith : idx + 1 + j + 1 = idx + (j + 1) + 1 := by omega
        simpa [harith] using hcol
    · rw [companiesWhereLoop_cons_other k v rest idx (by simpa using hk)] at hi ⊢
      exact ih idx i hi

theorem companiesWhereLoop_cols_head (m : Obj) (idx : Nat) (p : String × Value)
    (h : firstRecognizedCompany m = some p) :
    (companiesWhereLoop m idx).2.head? =
      some (colTextCompany p.1 ++ toString (idx + 1)) := by
  induction m generalizing idx with
  | nil => simp [firstRecognizedCompany] at h
  | cons q rest ih =>
    obtain ⟨k, v⟩ := q
    by_cases hk : recognizedCompanyKey k = true
    · rw [companiesWhereLoop_cons_recognized k v rest idx hk]
      simp [firstRecognizedCompany, hk] at h
      simp [← h]
    · rw [companiesWhereLoop_cons_other k v rest idx (by simpa using hk)]
      simp only [firstRecognizedCompany, hk, if_false] at h
      exact ih idx h

theorem lookup_map_processed (m : Obj) (k : String) :
    (m.map fun p => (p.1, processedCompanyValue p.1 p.2)).lookup k =
      (m.lookup k).map fun v => processedCompanyValue k v := by
  induction m with
  | nil => rfl
  | cons p rest ih =>
    obtain ⟨k', v'⟩ := p
    by_cases h : k = k'
    · subst h; simp [List.lookup]
    · have hb : (k == k') = false := beq_eq_false_iff_ne.2 h
      simp [List.lookup, hb, ih]

theorem mem_keys_of_lookup (m : Obj) (k : String) (v : Value)
    (h : m.lookup k = some v) : k ∈ m.map Prod.fst := by
  induction m with
  | nil => simp [List.lookup_nil] at h
  | cons p rest ih =>
    obtain ⟨k', v'⟩ := p
    by_cases hk : k = k'
    · simp [hk]
    · have hb : (k == k') = false := beq_eq_false_iff_ne.2 hk
      simp only [List.lookup, hb] at h
      simp only [List.map_cons, List.mem_cons]
      right
      exact ih h

theorem filter_length_lt_of_mem_not {α : Type} (l : List α) (q : α → Bool) (a : α)
    (ha : a ∈ l) (hqa : q a = false) : (l.filter q).length < l.length := by
  induction l with
  | nil => cases ha
  | cons b t ih =>
    rcases List.mem_cons.1 ha with rfl | ht
    · have hle := List.length_filter_le q t
      simp [List.filter_cons, hqa]
      omega
    · have hlt := ih ht
      by_cases hb : q b = true
      · simp [List.filter_cons, hb]
        omega
      · have hb' : q b = false := by simpa using hb
        simp [List.filter_cons, hb']
        omega

theorem companiesWhereLoop_cols_ne_nil (m : Obj) (idx : Nat) (p : String × Value)
    (hp : p ∈ m) (hrec : recognizedCompanyKey p.1 = true) :
    (companiesWhereLoop m idx).2 ≠ [] := by
  intro hnil
  have hlen := companiesWhereLoop_cols_length m idx
  rw [hnil] at hlen
  have hpos : 0 < ((m.filter fun q => recognizedCompanyKey q.1).length) :=
    List.length_pos_of_mem (List.mem_filter.2 ⟨hp, hrec⟩)
  simp at hlen
  omega

theorem sqlForCompaniesWhere_main (m : Obj) (hne : m ≠ [])
    (hcols : (companiesWhereLoop m 0).2 ≠ []) :
    sqlForCompaniesWhere m =
      ({ whereCols := "WHERE " ++ String.intercalate " AND " (companiesWhereLoop m 0).2,
         values := (companiesWhereLoop m 0).1.map Prod.snd },
       (companiesWhereLoop m 0).1) := by
  have h1 : m.isEmpty = false := by
    cases m with
    | nil => cases hne rfl
    | cons a t => rfl
  have h2 : (companiesWhereLoop m 0).2.isEmpty = false := by
    cases hc : (companiesWhereLoop m 0).2 with
    | nil => cases hcols hc
    | cons a t => rfl
  simp [sqlForCompaniesWhere, h1, h2]

theorem sqlForCompaniesWhere_mutated (m : Obj) :
    (sqlForCompaniesWhere m).2 =
      m.map fun p => (p.1, processedCompanyValue p.1 p.2) := by
  by_cases h1 : m.isEmpty
  · have : m = [] := by cases m with | nil => rfl | cons a t => simp at h1
    subst this
    rfl
  · have h1' : m.isEmpty = false := by simpa using h1
    by_cases h2 : (companiesWhereLoop m 0).2.isEmpty
    · simp [sqlForCompaniesWhere, h1', h2, companiesWhereLoop_fst]
    · have h2' : (companiesWhereLoop m 0).2.isEmpty = false := by simpa using h2
      simp [sqlForCompaniesWhere, h1', h2', companiesWhereLoop_fst]

theorem updateCols_length (data : Obj) (jsToSql : List (String × String)) :
    (updateCols data jsToSql).length = data.length := by
  simp [updateCols]

theorem updateCols_get (data : Obj) (jsToSql : List (String × String))
    (i : Nat) (hi : i < data.length) :
    (updateCols data jsToSql)[i]? =
      some ("\"" ++ colFor jsToSql (data.get ⟨i, hi⟩).1 ++ "\"=$" ++ toString (i + 1)) := by
  have hd : data[i]? = some (data.get ⟨i, hi⟩) := by
    simp [List.getElem?_eq_getElem hi]
  simp [updateCols, List.getElem?_map, List.getElem?_enum, hd]

/-! ## Claim theorems -/

/-- C8: the Partial-Update Clause Builder rejects the empty update mapping
with `InvalidInput` (`BadRequestError` in the code), and both calling update
operations therefore propagate the error without building any statement. -/
theorem sqlForPartialUpdate_empty_rejected :
    (∀ jsToSql, sqlForPartialUpdate [] jsToSql = .error .badRequest) ∧
    (∀ id : Int, jobUpdateStatement id [] = .error .badRequest) ∧
    (∀ handle : String, companyUpdateStatement handle [] = .error .badRequest) :=
  ⟨fun _ => rfl, fun _ => rfl, fun _ => rfl⟩

/-- C2 (code bug, evaluated at the claim's input): called with the filter
mapping of title "j1" and minSalary 1, `Job.findAll` does not build the
claimed clause `title ILIKE $1 AND salary >= $2`: the source `findAll()`
declares no filter parameter, `_sqlForJobsWhere` is commented out, and the
fixed unfiltered query runs with an empty values list — not the
`["%j1%", 1]` the claim requires. -/
theorem jobFindAll_title_minSalary_unfiltered :
    jobFindAll [("title", Value.str "j1"), ("minSalary", Value.num 1)] =
      .ok { text := jobsListQuery, params := [] } ∧
    jobFindAll [("title", Value.str "j1"), ("minSalary", Value.num 1)] = jobFindAll [] ∧
    ([] : List Value) ≠ [Value.str "%j1%", Value.num 1] :=
  ⟨rfl, rfl, by decide⟩

/-- C3 (code bug, evaluated at the claim's input): a filter mapping with the
unrecognized key invalidFilter is not rejected by `Job.findAll` — the filter
is silently ignored and the unfiltered query executes. -/
theorem jobFindAll_unrecognized_key_not_rejected :
    jobFindAll [("invalidFilter", Value.str "x")] =
      .ok { text := jobsListQuery, params := [] } ∧
    jobFindAll [("invalidFilter", Value.str "x")] ≠ .error .badRequest :=
  ⟨rfl, by simp [jobFindAll]⟩

/-- C5 (code bug, evaluated at the claim's input): a filter mapping with a
negative minSalary is not rejected by `Job.findAll` — the unfiltered query
executes and returns all rows. -/
theorem jobFindAll_negative_minSalary_not_rejected :
    jobFindAll [("minSalary", Value.num (-1))] =
      .ok { text := jobsListQuery, params := [] } ∧
    jobFindAll [("minSalary", Value.num (-1))] ≠ .error .badRequest :=
  ⟨rfl, by simp [jobFindAll]⟩

/-- C1 counterexample: with update mapping mapping field a to 1 and
translation table mapping a to the empty string, the table has an entry for
field a, so the claim requires the fragment to use the table's column name
(the empty string); the code's `jsToSql[colName] || colName` treats the
empty-string entry as falsy and falls back to the field name, emitting
`"a"=$1` instead of `""=$1`. -/
theorem sqlForPartialUpdate_translation_cex :
    sqlForPartialUpdate [("a", Value.num 1)] [("a", "")] =
      .ok { setCols := "\"a\"=$1", values := [Value.num 1] } ∧
    ("\"a\"=$1" : String) ≠ "\"\"=$1" :=
  ⟨rfl, by decide⟩

/-- C4 counterexample: `Company.update` with a mapping that sets `handle`
is not rejected — the builder runs and an UPDATE statement that rewrites the
primary key is produced; likewise `Job.update` with a mapping containing the
camel-case `companyHandle` slips past the guard (which tests the snake-case
`company_handle`) and reaches the builder. -/
theorem update_immutable_guard_cex :
    companyUpdateStatement "c1" [("handle", Value.str "x")] =
      .ok { text := "UPDATE companies SET \"handle\"=$1 WHERE handle = $2 RETURNING handle, name, description, num_employees AS \"numEmployees\", logo_url AS \"logoUrl\"",
            params := [Value.str "x", Value.str "c1"] } ∧
    jobUpdateStatement 1 [("companyHandle", Value.str "x"), ("title", Value.str "y")] =
      .ok { text := "UPDATE jobs SET \"companyHandle\"=$1, \"title\"=$2 WHERE id = $3 RETURNING id, title, salary, equity, company_handle AS \"companyHandle\"",
            params := [Value.str "x", Value.str "y", Value.num 1] } :=
  ⟨rfl, rfl⟩

/-- C6: whenever both minEmployees and maxEmployees are present as numbers
and the minimum exceeds the maximum, `Company.findAll` fails with
`InvalidInput` — the raw-value check at the repository layer runs before
`_sqlForCompaniesWhere` is invoked, and the error result carries no
statement, so no query executes. -/
theorem companyFindAll_min_gt_max_rejected (filters : Obj) (a b : Int)
    (hmin : filters.lookup "minEmployees" = some (Value.num a))
    (hmax : filters.lookup "maxEmployees" = some (Value.num b))
    (hab : a > b) :
    companyFindAll filters = .error .badRequest := by
  have hgt : jsGT (filters.lookup "minEmployees") (filters.lookup "maxEmployees") = true := by
    rw [hmin, hmax]
    simp only [jsGT]
    exact decide_eq_true hab
  simp [companyFindAll, hgt]

/-- C6 witness: the spec's concrete instance, minEmployees 5 with
maxEmployees 2. -/
theorem companyFindAll_min_gt_max_rejected_witness :
    companyFindAll [("minEmployees", Value.num 5), ("maxEmployees", Value.num 2)] =
      .error .badRequest :=
  companyFindAll_min_gt_max_rejected _ 5 2 rfl rfl (by decide)

/-- The amended C1 contract of the Partial-Update Clause Builder on one
mapping and translation table: the call succeeds, returning one fragment per
input field in iteration order with placeholders 1..N and no gaps, a value
list in matching order, and a column name taken from the translation table
exactly when a non-empty entry exists there, the logical field name when the
entry is missing or empty. -/
def PartialUpdateFragmentsSpec (data : Obj) (jsToSql : List (String × String)) : Prop :=
  ∃ sc : SetClause,
    sqlForPartialUpdate data jsToSql = .ok sc ∧
    sc.setCols = String.intercalate ", " (updateCols data jsToSql) ∧
    (updateCols data jsToSql).length = data.length ∧
    (∀ i : Nat, ∀ hi : i < data.length,
      (updateCols data jsToSql)[i]? =
        some ("\"" ++ colFor jsToSql (data.get ⟨i, hi⟩).1 ++ "\"=$" ++ toString (i + 1))) ∧
    sc.values = data.map Prod.snd ∧
    (∀ c s, jsToSql.lookup c = some s → s ≠ "" → colFor jsToSql c = s) ∧
    (∀ c, jsToSql.lookup c = none ∨ jsToSql.lookup c = some "" → colFor jsToSql c = c)

/-- C1 (amended: a translation entry is used only when it is non-empty, i.e.
truthy in JS; an empty-string entry falls back to the field name like a
missing one): for every non-empty update mapping the builder returns one
`"<col>"=$<i+1>` fragment per field in iteration order, placeholders 1..N
with no gaps, and a values list in matching order. -/
theorem sqlForPartialUpdate_fragments_spec (data : Obj)
    (jsToSql : List (String × String)) (h : data ≠ []) :
    PartialUpdateFragmentsSpec data jsToSql := by
  have hne : data.isEmpty = false := by
    cases data with
    | nil => cases h rfl
    | cons a t => rfl
  refine ⟨{ setCols := String.intercalate ", " (updateCols data jsToSql),
            values := data.map Prod.snd },
    by simp [sqlForPartialUpdate, hne], rfl, updateCols_length data jsToSql,
    ?_, rfl, ?_, ?_⟩
  · intro i hi
    exact updateCols_get data jsToSql i hi
  · intro c s hcs hs
    simp [colFor, hcs, hs]
  · intro c hc
    rcases hc with hc | hc <;> simp [colFor, hc]

/-- C1 witness: the builder's own doc-comment example, firstName "Aliya" and
age 32 with firstName translated to first_name. -/
theorem sqlForPartialUpdate_fragments_spec_witness :
    PartialUpdateFragmentsSpec
      [("firstName", Value.str "Aliya"), ("age", Value.num 32)]
      [("firstName", "first_name")] :=
  sqlForPartialUpdate_fragments_spec _ _ (by simp)

/-- C4 (amended): `Job.update` rejects with `InvalidInput`, before invoking
the builder and independent of any row lookup, exactly the mappings
containing key `id` or the snake-case key `company_handle`; a mapping
containing only the camel-case `companyHandle` is not rejected there (the
builder runs and a statement is produced); and `Company.update` performs no
immutable-field check at all — for every mapping containing `handle` the
builder is invoked and an UPDATE statement is produced. -/
theorem update_immutable_guard_spec :
    (∀ (id : Int) (data : Obj),
      ((data.lookup "id").isSome ∨ (data.lookup "company_handle").isSome) →
      jobUpdateStatement id data = .error .badRequest) ∧
    (∀ (handle : String) (data : Obj), "handle" ∈ data.map Prod.fst →
      ∃ st, companyUpdateStatement handle data = .ok st) ∧
    (∀ (id : Int) (data : Obj), data ≠ [] →
      data.lookup "id" = none → data.lookup "company_handle" = none →
      ∃ st, jobUpdateStatement id data = .ok st) := by
  refine ⟨?_, ?_, ?_⟩
  · intro id data h
    have hcond :
        ((data.lookup "id").isSome || (data.lookup "company_handle").isSome) = true := by
      rcases h with h | h <;> simp [h]
    simp [jobUpdateStatement, hcond]
  · intro handle data h
    have hne : data.isEmpty = false := by
      cases data with
      | nil => simp at h
      | cons a t => rfl
    cases hq : sqlForPartialUpdate data companyJsToSql with
    | error e => simp [sqlForPartialUpdate, hne] at hq
    | ok sc => exact ⟨_, by simp only [companyUpdateStatement]; rw [hq]; rfl⟩
  · intro id data hne h1 h2
    have hcond :
        ((data.lookup "id").isSome || (data.lookup "company_handle").isSome) = false := by
      simp [h1, h2]
    have hne' : data.isEmpty = false := by
      cases data with
      | nil => cases hne rfl
      | cons a t => rfl
    cases hq : sqlForPartialUpdate data [] with
    | error e => simp [sqlForPartialUpdate, hne'] at hq
    | ok sc =>
      exact ⟨_, by
        simp only [jobUpdateStatement, hcond, Bool.false_eq_true, if_false]
        rw [hq]
        rfl⟩

/-- C4 witness: the snake-case key is rejected; a `handle`-bearing Company
mapping and an ordinary Job mapping both reach the builder and yield
statements. -/
theorem update_immutable_guard_spec_witness :
    jobUpdateStatement 1 [("company_handle", Value.str "c2")] = .error .badRequest ∧
    (∃ st, companyUpdateStatement "c1"
      [("handle", Value.str "x"), ("name", Value.str "n")] = .ok st) ∧
    (∃ st, jobUpdateStatement 1 [("title", Value.str "t")] = .ok st) :=
  ⟨update_immutable_guard_spec.1 1 _ (Or.inr (by decide)),
   update_immutable_guard_spec.2.1 "c1" _ (by decide),
   update_immutable_guard_spec.2.2 1 _ (by simp) rfl rfl⟩

/-- The C7 contract of the Company filter builder on a mapping with only
recognized keys: the clause is `WHERE` followed by one predicate per key in
iteration order joined with `AND`, the i-th predicate carrying placeholder
`$i+1` for that key's column, and the values list is the mapping's values in
the same order with the `nameLike` value wildcard-wrapped by the builder. -/
def CompanyRecognizedColsSpec (m : Obj) : Prop :=
  ∃ cols : List String,
    (sqlForCompaniesWhere m).1.whereCols = "WHERE " ++ String.intercalate " AND " cols ∧
    cols.length = m.length ∧
    (∀ i : Nat, ∀ hi : i < m.length,
      cols[i]? = some (colTextCompany (m.get ⟨i, hi⟩).1 ++ toString (i + 1))) ∧
    (sqlForCompaniesWhere m).1.values =
      m.map fun p => processedCompanyValue p.1 p.2

/-- C7: the empty Company filter mapping yields an empty clause and empty
value list; the spec's two concrete examples produce exactly the claimed
clauses and values (wildcarding done by the builder); and every non-empty
mapping with only recognized keys gets one predicate per key in iteration
order, consecutive placeholders from 1, and an aligned value list. -/
theorem companiesWhere_recognized_spec :
    (sqlForCompaniesWhere []).1 = { whereCols := "", values := [] } ∧
    (sqlForCompaniesWhere [("nameLike", Value.str "hall")]).1 =
      { whereCols := "WHERE name ILIKE $1", values := [Value.str "%hall%"] } ∧
    (sqlForCompaniesWhere [("nameLike", Value.str "hall"), ("minEmployees", Value.num 3)]).1 =
      { whereCols := "WHERE name ILIKE $1 AND num_employees >= $2",
        values := [Value.str "%hall%", Value.num 3] } ∧
    ∀ m : Obj, (∀ p ∈ m, recognizedCompanyKey p.1 = true) → m ≠ [] →
      CompanyRecognizedColsSpec m := by
  refine ⟨rfl, rfl, rfl, ?_⟩
  intro m hm hne
  obtain ⟨p, hp⟩ : ∃ p, p ∈ m := by
    cases m with
    | nil => cases hne rfl
    | cons a t => exact ⟨a, List.mem_cons_self a t⟩
  have hcols : (companiesWhereLoop m 0).2 ≠ [] :=
    companiesWhereLoop_cols_ne_nil m 0 p hp (hm p hp)
  have hmain := sqlForCompaniesWhere_main m hne hcols
  refine ⟨(companiesWhereLoop m 0).2, by rw [hmain], ?_, ?_, ?_⟩
  · rw [companiesWhereLoop_cols_length]
    have hself : m.filter (fun q => recognizedCompanyKey q.1) = m :=
      List.filter_eq_self.2 hm
    rw [hself]
  · intro i hi
    have hcol := companiesWhereLoop_cols_rec m 0 hm i hi
    simpa using hcol
  · rw [hmain, companiesWhereLoop_fst]
    simp [List.map_map, Function.comp]

/-- C7 witness: the general clause applied to the one-key mapping
maxEmployees 7. -/
theorem companiesWhere_recognized_spec_witness :
    CompanyRecognizedColsSpec [("maxEmployees", Value.num 7)] :=
  companiesWhere_recognized_spec.2.2.2 _ (by decide) (by simp)

/-- The C9 description of the Company filter builder on a mapping holding
both recognized and unrecognized keys: the clause has one placeholder per
recognized key only, yet the values list keeps every value of the mapping
(unrecognized keys' values included), so it is strictly longer than the
placeholder count; and when the mapping starts with an unrecognized key
whose value differs from the first recognized key's processed value, the
value in position 1 — the one placeholder `$1` binds at execution — is the
unrecognized key's value, not the value predicate `$1` was built for. -/
def CompanyMixedKeysSpec (m : Obj) : Prop :=
  ∃ cols : List String,
    (sqlForCompaniesWhere m).1.whereCols = "WHERE " ++ String.intercalate " AND " cols ∧
    (∀ i : Nat, i < cols.length → ∃ k, recognizedCompanyKey k = true ∧
      cols[i]? = some (colTextCompany k ++ toString (i + 1))) ∧
    cols.length < (sqlForCompaniesWhere m).1.values.length ∧
    (sqlForCompaniesWhere m).1.values.length = m.length ∧
    (∀ p ∈ m, recognizedCompanyKey p.1 = false →
      p.2 ∈ (sqlForCompaniesWhere m).1.values) ∧
    (∀ k₀ v₀ rest, m = (k₀, v₀) :: rest → recognizedCompanyKey k₀ = false →
      (sqlForCompaniesWhere m).1.values.head? = some v₀ ∧
      ∀ k₁ v₁, firstRecognizedCompany rest = some (k₁, v₁) →
        cols.head? = some (colTextCompany k₁ ++ "1") ∧
        (v₀ ≠ processedCompanyValue k₁ v₁ →
          (sqlForCompaniesWhere m).1.values.head? ≠
            some (processedCompanyValue k₁ v₁)))

/-- C9: for every Company filter mapping with at least one recognized and at
least one unrecognized key, `_sqlForCompaniesWhere` still returns all the
mapping's values — more values than placeholders — and an unrecognized key
sitting before the first recognized one shifts the value that placeholder
`$1` binds away from the value its predicate was built for. -/
theorem companiesWhere_mixed_keys_misalignment (m : Obj)
    (hrec : ∃ p ∈ m, recognizedCompanyKey p.1 = true)
    (hunrec : ∃ p ∈ m, recognizedCompanyKey p.1 = false) :
    CompanyMixedKeysSpec m := by
  obtain ⟨pr, hpr, hprt⟩ := hrec
  obtain ⟨pu, hpu, hput⟩ := hunrec
  have hne : m ≠ [] := by
    intro h
    subst h
    cases hpr
  have hcols : (companiesWhereLoop m 0).2 ≠ [] :=
    companiesWhereLoop_cols_ne_nil m 0 pr hpr hprt
  have hmain := sqlForCompaniesWhere_main m hne hcols
  have hvals : (sqlForCompaniesWhere m).1.values =
      m.map fun p => processedCompanyValue p.1 p.2 := by
    rw [hmain, companiesWhereLoop_fst]
    simp [List.map_map, Function.comp]
  have hvlen : (sqlForCompaniesWhere m).1.values.length = m.length := by
    rw [hvals]
    simp
  refine ⟨(companiesWhereLoop m 0).2, by rw [hmain], ?_, ?_, hvlen, ?_, ?_⟩
  · intro i hi
    have := companiesWhereLoop_cols_shape m 0 i hi
    simpa using this
  · rw [hvlen, companiesWhereLoop_cols_length]
    exact filter_length_lt_of_mem_not m (fun q => recognizedCompanyKey q.1) pu hpu hput
  · intro p hp hpf
    have hnl : ¬p.1 = "nameLike" := by
      intro h
      simp [recognizedCompanyKey, h] at hpf
    have : processedCompanyValue p.1 p.2 = p.2 := by
      simp [processedCompanyValue, hnl]
    rw [hvals]
    exact this ▸ List.mem_map_of_mem _ hp
  · intro k₀ v₀ rest hm0 hk₀
    subst hm0
    have hnl0 : ¬k₀ = "nameLike" := by
      intro h
      simp [recognizedCompanyKey, h] at hk₀
    have hhead : (sqlForCompaniesWhere ((k₀, v₀) :: rest)).1.values.head? = some v₀ := by
      rw [hvals]
      simp [processedCompanyValue, hnl0]
    refine ⟨hhead, ?_⟩
    intro k₁ v₁ hfr
    constructor
    · rw [companiesWhereLoop_cons_other k₀ v₀ rest 0 hk₀]
      have := companiesWhereLoop_cols_head rest 0 (k₁, v₁) hfr
      simpa using this
    · intro hne'
      rw [hhead]
      intro hcontra
      exact hne' (Option.some.inj hcontra)

/-- C9 witness: the mapping with unrecognized invalidFilter "x" before
minEmployees 3, where the clause `WHERE num_employees >= $1` would bind
`$1` to "x". -/
theorem companiesWhere_mixed_keys_misalignment_witness :
    CompanyMixedKeysSpec [("invalidFilter", Value.str "x"), ("minEmployees", Value.num 3)] :=
  companiesWhere_mixed_keys_misalignment _ (by decide) (by decide)

/-- The C10 description of the builder's in-place mutation on a mapping whose
nameLike entry holds the string s: after the call the caller's mapping is the
original with only the nameLike entry overwritten by its wildcard-wrapped
form, every other entry kept identical in place, and the returned value list
is read from the mutated mapping. -/
def CompanyNameLikeMutationSpec (m : Obj) (s : String) : Prop :=
  (sqlForCompaniesWhere m).2 =
    m.map (fun p => if p.1 = "nameLike" then (p.1, wildcardWrap p.2) else p) ∧
  ((sqlForCompaniesWhere m).2).lookup "nameLike" =
    some (Value.str ("%" ++ s ++ "%")) ∧
  (∀ p ∈ m, p.1 ≠ "nameLike" → p ∈ (sqlForCompaniesWhere m).2) ∧
  (sqlForCompaniesWhere m).1.values = ((sqlForCompaniesWhere m).2).map Prod.snd

/-- C10: for every filter mapping containing nameLike,
`_sqlForCompaniesWhere` mutates the caller's mapping in place, replacing the
nameLike value by its `%`-wrapped form before `Object.values` is read; all
other entries are left untouched. -/
theorem companiesWhere_mutates_nameLike (m : Obj) (s : String)
    (h : m.lookup "nameLike" = some (Value.str s)) :
    CompanyNameLikeMutationSpec m s := by
  have hmut := sqlForCompaniesWhere_mutated m
  have htf : (fun p : String × Value => (p.1, processedCompanyValue p.1 p.2)) =
      fun p : String × Value =>
        if p.1 = "nameLike" then (p.1, wildcardWrap p.2) else p := by
    funext p
    by_cases hp : p.1 = "nameLike" <;> simp [processedCompanyValue, hp]
  refine ⟨by rw [hmut, htf], ?_, ?_, ?_⟩
  · rw [hmut, lookup_map_processed, h]
    simp [processedCompanyValue, wildcardWrap, jsString]
  · intro p hp hpn
    rw [hmut, htf]
    have hid : (fun q : String × Value =>
        if q.1 = "nameLike" then (q.1, wildcardWrap q.2) else q) p = p := by
      simp [hpn]
    exact hid ▸ List.mem_map_of_mem _ hp
  · have hkey : "nameLike" ∈ m.map Prod.fst := mem_keys_of_lookup m _ _ h
    obtain ⟨p, hp, hpf⟩ := List.mem_map.1 hkey
    have hrec : recognizedCompanyKey p.1 = true := by
      simp [recognizedCompanyKey, hpf]
    have hne : m ≠ [] := by
      intro hn
      subst hn
      cases hp
    have hcols : (companiesWhereLoop m 0).2 ≠ [] :=
      companiesWhereLoop_cols_ne_nil m 0 p hp hrec
    rw [sqlForCompaniesWhere_main m hne hcols]

/-- C10 witness: the mapping nameLike "hall", minEmployees 3 — after the
call the caller's mapping holds "%hall%" under nameLike and the minEmployees
entry is untouched. -/
theorem companiesWhere_mutates_nameLike_witness :
    CompanyNameLikeMutationSpec
      [("nameLike", Value.str "hall"), ("minEmployees", Value.num 3)] "hall" :=
  companiesWhere_mutates_nameLike _ _ rfl

end Jobly
